import Mathlib

/-!
# Verification of the csaf-walker core against its specification

This development shallowly embeds the two core subsystems of the
`csaf-walker` repository:

* the CSAF provider-metadata discovery chain
  (`csaf/src/metadata/mod.rs`: `MetadataRetriever` and its five
  discovery approaches), and
* the embedded CSAF validator adapter
  (`csaf/src/verification/check/csaf_validator_lib/mod.rs`:
  `CsafValidatorLib::check`, `InnerCheck::validate` and the `Deadline`
  watchdog).

External collaborators (the HTTP `Fetcher`, the DNS resolver, the
`sectxtlib` security.txt parser, the `url` crate, and the embedded JS
runtime) are modelled as explicit parameters (a `World` record of
response functions), following the contracts the specification states
for them.  The repository's own code is translated function by
function; each definition's doc comment names the Rust item it embeds.

Each discovery approach additionally returns the list of URLs it
requested over HTTP.  This request log is ghost instrumentation: it
lets us state "this approach issues no HTTP request" as "the log is
empty", while the first projection is exactly the Rust function's
result.
-/

/-! ## Model of the `url` crate (external dependency)

`Url::parse` on an absolute URL: a scheme (one ASCII alphabetic
character followed by ASCII alphanumerics or `+`, `-`, `.`), a colon,
and the remainder.  The scheme is normalised to lower case, as the
`url` crate does.  A string with no such scheme prefix is not an
absolute URL and fails to parse.  Only the pieces the repository
observes (parse success and the scheme) are modelled. -/

structure Url where
  scheme : String
  rest : String
deriving DecidableEq, Repr

/-- Characters allowed in a URL scheme after the first (RFC 3986 §3.1). -/
def isSchemeRest (c : Char) : Bool :=
  c.isAlpha || c.isDigit || c == '+' || c == '-' || c == '.'

/-- Split a character list at the first colon, failing when there is none. -/
def splitAtColon : List Char → Option (List Char × List Char)
| [] => none
| c :: rest =>
  if c = ':' then some ([], rest)
  else
    match splitAtColon rest with
    | some (a, b) => some (c :: a, b)
    | none => none

/-- Model of `url::Url::parse` (external): succeeds exactly on strings with a
well-formed scheme followed by a colon; the scheme is lower-cased. -/
def Url.parse (s : String) : Option Url :=
  match splitAtColon s.toList with
  | none => none
  | some (schemeChars, restChars) =>
    match schemeChars with
    | [] => none
    | c :: cs =>
      if c.isAlpha && cs.all isSchemeRest then
        some { scheme := String.mk ((c :: cs).map Char.toLower), rest := String.mk restChars }
      else none

/-- Model of `url::Url`'s serialisation back to a string. -/
def Url.toString (u : Url) : String := u.scheme ++ ":" ++ u.rest

deriving instance DecidableEq for Except

namespace Discovery

/-- `Error` from `csaf/src/metadata/mod.rs` (payloads of the external error
values are not modelled):
`SecurityTxt`, `Fetch`, `NotFound`, `Dns`. -/
inductive Error where
| securityTxt
| fetch
| notFound
| dns
deriving DecidableEq, Repr

/-- `ProviderMetadata`: opaque JSON document; the core treats it as a
transparent value (spec §3), so it is modelled as its raw text. -/
structure ProviderMetadata where
  json : String
deriving DecidableEq, Repr

/-- A security.txt extension entry as produced by the external `sectxtlib`
parser: `{name, value}` (spec §6, parser contract). -/
structure Extension where
  name : String
  value : String
deriving DecidableEq, Repr

/-- Outcome of one HTTP GET, as the external `Fetcher` distinguishes them:
success with a body, HTTP 404, or any other failure (transport, TLS, …). -/
inductive FetchResult where
| ok (body : String)
| notFound
| failed
deriving DecidableEq, Repr

/-- Outcome of the external stub resolver's `lookup_ip`: a resolution with a
number of records (possibly zero), an authoritative no-records answer
(`is_no_records_found()`), or any other resolver error. -/
inductive DnsResult where
| resolved (count : Nat)
| noRecordsFound
| otherError
deriving DecidableEq, Repr

/-- The external world a discovery run interacts with: the HTTP fetcher, the
JSON decoder for `ProviderMetadata` bodies, the `sectxtlib` security.txt
parser (`none` = parse error), and the DNS resolver. -/
structure World where
  fetch : String → FetchResult
  decodePM : String → Option ProviderMetadata
  parseSecurityTxt : String → Option (List Extension)
  lookupIp : String → DnsResult

/-- `fetcher.fetch::<Json<ProviderMetadata>>(url)` — the non-`Option` fetch
variant: per the fetcher contract, a 404 is an error, as is any other
failure or a body that does not decode. -/
def fetchJsonPM (w : World) (url : String) : Except Error ProviderMetadata :=
  match w.fetch url with
  | .ok body =>
    match w.decodePM body with
    | some pm => .ok pm
    | none => .error .fetch
  | .notFound => .error .fetch
  | .failed => .error .fetch

/-- `fetcher.fetch::<Option<Json<ProviderMetadata>>>(url)` — the `Option`
fetch variant: a 404 yields `Ok(None)`; other failures are errors. -/
def fetchOptJsonPM (w : World) (url : String) : Except Error (Option ProviderMetadata) :=
  match w.fetch url with
  | .ok body =>
    match w.decodePM body with
    | some pm => .ok (some pm)
    | none => .error .fetch
  | .notFound => .ok none
  | .failed => .error .fetch

/-- `fetcher.fetch::<Option<String>>(url)`: body text, `Ok(None)` on 404. -/
def fetchOptString (w : World) (url : String) : Except Error (Option String) :=
  match w.fetch url with
  | .ok body => .ok (some body)
  | .notFound => .ok none
  | .failed => .error .fetch

/-- The extension scan inside `get_metadata_url_from_security_text`
(metadata/mod.rs lines 80–86):
`extension.into_iter().filter(|ext| ext.name == "csaf")
 .filter_map(|ext| Url::parse(&ext.value).ok())
 .find(|url| url.scheme() == "https")`. -/
def selectCsafUrl (exts : List Extension) : Option Url :=
  ((exts.filter fun ext => ext.name == "csaf").filterMap
    fun ext => Url.parse ext.value).find? fun url => url.scheme == "https"

/-- Specification-side restatement of the extension scan (spec §4.1: "the
first extension with name `csaf` and `https`-scheme value, in document
order; entries with `http`-scheme values are skipped even if they appear
first"), to be compared with `selectCsafUrl`, which is translated from
the source. -/
def specFirstCsafHttps : List Extension → Option Url
| [] => none
| ext :: rest =>
  match Url.parse ext.value with
  | some url =>
    if ext.name = "csaf" ∧ url.scheme = "https" then some url
    else specFirstCsafHttps rest
  | none => specFirstCsafHttps rest

/-- `MetadataRetriever::get_metadata_url_from_security_text`: fetch the
security.txt body (404 → `Ok(None)`), parse it (parse error →
`Err(SecurityTxt)`), and scan the extensions.  Second component: the
URLs requested over HTTP. -/
def get_metadata_url_from_security_text (w : World) (host_url : String) :
    Except Error (Option Url) × List String :=
  match fetchOptString w host_url with
  | .error e => (.error e, [host_url])
  | .ok none => (.ok none, [host_url])
  | .ok (some text) =>
    match w.parseSecurityTxt text with
    | none => (.error .securityTxt, [host_url])
    | some txt => (.ok (selectCsafUrl txt), [host_url])

/-- `MetadataRetriever::approach_full_url`: if `base_url` does not parse as
an absolute URL, `Ok(None)` without any fetch; otherwise a non-`Option`
fetch of the parsed URL (so a 404 is an error). -/
def approach_full_url (w : World) (base_url : String) :
    Except Error (Option ProviderMetadata) × List String :=
  match Url.parse base_url with
  | none => (.ok none, [])
  | some url => ((fetchJsonPM w url.toString).map some, [url.toString])

/-- The well-known URL `https://{base_url}/.well-known/csaf/provider-metadata.json`. -/
def wellKnownUrl (base_url : String) : String :=
  "https://" ++ base_url ++ "/.well-known/csaf/provider-metadata.json"

/-- `MetadataRetriever::approach_well_known`: `Option` fetch of the
well-known URL (404 → `Ok(None)`). -/
def approach_well_known (w : World) (base_url : String) :
    Except Error (Option ProviderMetadata) × List String :=
  (fetchOptJsonPM w (wellKnownUrl base_url), [wellKnownUrl base_url])

/-- The security.txt URL `https://{base_url}/{path}`. -/
def securityTxtUrl (base_url path : String) : String :=
  "https://" ++ base_url ++ "/" ++ path

/-- `MetadataRetriever::approach_security_txt`: extract the CSAF URL from
the security.txt at `https://{base_url}/{path}`; if one is found, fetch
it with the non-`Option` variant (a 404 there is an error, "as the
security.txt pointed us towards it"). -/
def approach_security_txt (w : World) (base_url path : String) :
    Except Error (Option ProviderMetadata) × List String :=
  match get_metadata_url_from_security_text w (securityTxtUrl base_url path) with
  | (.error e, log) => (.error e, log)
  | (.ok none, log) => (.ok none, log)
  | (.ok (some url), log) =>
    ((fetchJsonPM w url.toString).map some, log ++ [url.toString])

/-- The DNS host `csaf.data.security.{base_url}`. -/
def dnsHost (base_url : String) : String := "csaf.data.security." ++ base_url

/-- `MetadataRetriever::approach_dns`: DNS pre-flight lookup of
`csaf.data.security.{base_url}`; an empty resolution or an authoritative
no-records answer is `Ok(None)` with no HTTP request; any other resolver
error is `Err(Dns)`; otherwise an `Option` fetch of `https://{host}`
(404 → `Ok(None)`). -/
def approach_dns (w : World) (base_url : String) :
    Except Error (Option ProviderMetadata) × List String :=
  match w.lookupIp (dnsHost base_url) with
  | .resolved 0 => (.ok none, [])
  | .noRecordsFound => (.ok none, [])
  | .otherError => (.error .dns, [])
  | .resolved (_ + 1) =>
    (fetchOptJsonPM w ("https://" ++ dnsHost base_url),
      ["https://" ++ dnsHost base_url])

/-- `MetadataRetriever::load_metadata` (metadata/mod.rs lines 203–243): try
the five approaches in order, returning at the first `Ok(Some)`,
propagating the first `Err` via `?`, and falling through to
`Err(NotFound)` when all five return `Ok(None)`. -/
def load_metadata (w : World) (base_url : String) : Except Error ProviderMetadata :=
  match (approach_full_url w base_url).1 with
  | .error e => .error e
  | .ok (some metadata) => .ok metadata
  | .ok none =>
    match (approach_well_known w base_url).1 with
    | .error e => .error e
    | .ok (some metadata) => .ok metadata
    | .ok none =>
      match (approach_security_txt w base_url ".well-known/security.txt").1 with
      | .error e => .error e
      | .ok (some metadata) => .ok metadata
      | .ok none =>
        match (approach_security_txt w base_url "security.txt").1 with
        | .error e => .error e
        | .ok (some metadata) => .ok metadata
        | .ok none =>
          match (approach_dns w base_url).1 with
          | .error e => .error e
          | .ok (some metadata) => .ok metadata
          | .ok none => .error .notFound

/-- The five approach results, in the order `load_metadata` tries them. -/
def approaches (w : World) (base_url : String) :
    List (Except Error (Option ProviderMetadata)) :=
  [(approach_full_url w base_url).1,
   (approach_well_known w base_url).1,
   (approach_security_txt w base_url ".well-known/security.txt").1,
   (approach_security_txt w base_url "security.txt").1,
   (approach_dns w base_url).1]

/-- Reference chain over a list of approach results: stop at the first
error or the first `some`, fall through on `none`, and report `NotFound`
when the list is exhausted. -/
def chain : List (Except Error (Option ProviderMetadata)) → Except Error ProviderMetadata
| [] => .error .notFound
| .error e :: _ => .error e
| .ok (some m) :: _ => .ok m
| .ok none :: rest => chain rest

/-- How many approaches of the list the chain attempts: every approach up
to and including the first one that does not return `Ok(None)`. -/
def attempted : List (Except Error (Option ProviderMetadata)) → Nat
| [] => 0
| .ok none :: rest => attempted rest + 1
| .error _ :: _ => 1
| .ok (some _) :: _ => 1

/-- World in which every approach reports "not present": every fetch is a
404 and the resolver answers "no records". -/
def c1World : World :=
  { fetch := fun _ => .notFound
    decodePM := fun _ => none
    parseSecurityTxt := fun _ => none
    lookupIp := fun _ => .noRecordsFound }

/-- World in which every fetch is a 404. -/
def c3World : World :=
  { fetch := fun _ => .notFound
    decodePM := fun _ => none
    parseSecurityTxt := fun _ => none
    lookupIp := fun _ => .noRecordsFound }

/-- World serving a security.txt whose first CSAF entry has an `http` value
and whose second has an `https` value. -/
def c6World : World :=
  { fetch := fun url =>
      if url = "https://vendor.example/.well-known/security.txt" then .ok "stxt"
      else .notFound
    decodePM := fun _ => none
    parseSecurityTxt := fun text =>
      if text = "stxt" then
        some [{ name := "csaf", value := "http://legacy.example/pm.json" },
              { name := "csaf", value := "https://good.example/pm.json" }]
      else none
    lookupIp := fun _ => .noRecordsFound }

/-- World whose resolver distinguishes four hosts: an empty resolution, an
authoritative no-records answer, a transport error, and a successful
resolution; every fetch succeeds with a decodable body. -/
def c8World : World :=
  { fetch := fun _ => .ok "body"
    decodePM := fun _ => some { json := "pm" }
    parseSecurityTxt := fun _ => none
    lookupIp := fun host =>
      if host = dnsHost "a" then .resolved 0
      else if host = dnsHost "b" then .noRecordsFound
      else if host = dnsHost "c" then .otherError
      else .resolved 1 }

/-- World in which the DNS preflight succeeds but every HTTP fetch of a
metadata document is a 404, and the security.txt at the modern path
names a CSAF URL that 404s. -/
def c10World : World :=
  { fetch := fun url =>
      if url = "https://vendor.example/.well-known/security.txt" then .ok "stxt"
      else .notFound
    decodePM := fun _ => none
    parseSecurityTxt := fun text =>
      if text = "stxt" then
        some [{ name := "csaf", value := "https://good.example/pm.json" }]
      else none
    lookupIp := fun _ => .resolved 1 }

end Discovery

namespace Validator

/-- A CSAF document, opaque to the adapter (it is only serialised into the
isolate), modelled by its serialised form. -/
abbrev Csaf := String

/-- `Error` from `csaf_validator_lib/mod.rs`: one validator error message. -/
structure Error where
  message : String
deriving DecidableEq, Repr

/-- `Entry` from `csaf_validator_lib/mod.rs`: one test result entry. -/
structure Entry where
  name : String
  is_valid : Bool
  errors : List Error
  warnings : List String
  infos : List String
deriving DecidableEq, Repr

/-- `TestResult` from `csaf_validator_lib/mod.rs`. -/
structure TestResult where
  tests : List Entry
deriving DecidableEq, Repr

/-- `ValidationSet` from `csaf_validator_lib/mod.rs`. -/
inductive ValidationSet where
| schema
| mandatory
| optional
deriving DecidableEq, Repr

/-- `Profile` from `csaf_validator_lib/mod.rs`. -/
inductive Profile where
| Schema
| Mandatory
| Optional
deriving DecidableEq, Repr

/-- The profile expansion in `CsafValidatorLib::new`. -/
def validations : Profile → List ValidationSet
| .Schema => [.schema]
| .Mandatory => [.schema, .mandatory]
| .Optional => [.schema, .mandatory, .optional]

/-- A handle to one `InnerCheck` (JS runtime plus runner); the runtime
itself is external, so the handle is an opaque identity. -/
structure InnerCheck where
  id : Nat
deriving DecidableEq, Repr

/-- The external behaviour `check` interacts with: what `InnerCheck::new`
produces, and what `inner.validate(doc, …)` returns on a given runtime
instance (`none` is the timeout sentinel). -/
structure ValWorld where
  newInner : InnerCheck
  outcome : InnerCheck → Csaf → Option TestResult

/-- The runtime instance a `check` call uses: the one already in the slot,
or a lazily built fresh one (`csaf_validator_lib/mod.rs` lines 269–275). -/
def innerUsed (w : ValWorld) (slot : Option InnerCheck) : InnerCheck :=
  match slot with
  | some inner => inner
  | none => w.newInner

/-- The result loop of `CsafValidatorLib::check` (lines 289–307): iterate
entries in order, skip valid ones, and emit `"{name}: {message}"` per
error. -/
def renderTests : List Entry → List String
| [] => []
| entry :: rest =>
  (if entry.is_valid then []
   else entry.errors.map fun error => entry.name ++ ": " ++ error.message)
    ++ renderTests rest

/-- `CsafValidatorLib::check` as a transformer of the runtime slot: obtain
the runtime (existing or lazily built), run `validate`; on the timeout
sentinel `None` clear the slot and return `["check timed out"]`;
otherwise keep the runtime and render the test result. -/
def check (w : ValWorld) (slot : Option InnerCheck) (csaf : Csaf) :
    Option InnerCheck × List String :=
  match w.outcome (innerUsed w slot) csaf with
  | none => (none, ["check timed out"])
  | some test_result => (some (innerUsed w slot), renderTests test_result.tests)

/-- A value passed into the isolate: either the serialised document or the
serialised validation-set list. -/
inductive JsValue where
| docVal (doc : Csaf)
| validationsVal (vs : List ValidationSet)
deriving DecidableEq, Repr

/-- The argument construction in `InnerCheck::validate` (lines 97–111):
serialise `doc`, serialise `validations`, and pass `[validations, doc]`. -/
def buildArgs (doc : Csaf) (vsets : List ValidationSet) : List JsValue :=
  [JsValue.validationsVal vsets, JsValue.docVal doc]

/-- `InnerCheck::validate`, with the runner call and the deadline outcome
made explicit: the runner is applied to the built argument list; if the
deadline cancelled execution the timeout sentinel `none` is returned,
otherwise the deserialised result. -/
def validate (runner : List JsValue → TestResult) (cancelled : Bool)
    (doc : Csaf) (vsets : List ValidationSet) : Option TestResult :=
  let result := runner (buildArgs doc vsets)
  if cancelled then none else some result

/-- A timing scenario for one `Deadline` guard: the instant the watchdog
thread begins its timed wait, the instant `Deadline::drop` runs
`notify_one`, and the configured duration. -/
structure DeadlineScenario where
  waitStart : Nat
  dropTime : Nat
  duration : Nat
deriving DecidableEq, Repr

/-- Outcome of the watchdog's `Condvar::wait_timeout`. -/
inductive WaitResult where
| notified
| timedOut
deriving DecidableEq, Repr

/-- What the watchdog did before exiting. -/
structure WatchdogEffect where
  cancelledSet : Bool
  terminated : Bool
deriving DecidableEq, Repr

/-- Model of `std::sync::Condvar::wait_timeout` semantics for this guard:
the wait returns "notified" exactly when `notify_one` fires while the
watchdog is blocked in the wait, i.e. at or after `waitStart` and before
the duration elapses.  A `notify_one` issued before the wait begins
wakes no waiting thread and is lost (std documents that a notification
with no blocked thread is not queued), so the wait then times out. -/
def waitOutcome (s : DeadlineScenario) : WaitResult :=
  if s.waitStart ≤ s.dropTime ∧ s.dropTime < s.waitStart + s.duration then
    WaitResult.notified
  else WaitResult.timedOut

/-- The watchdog body after `wait_timeout` returns
(`csaf_validator_lib/mod.rs` lines 132–138): on timeout, store
`cancelled = true` and call `terminate_execution`; on notification, do
nothing. -/
def watchdogRun : WaitResult → WatchdogEffect
| .timedOut => { cancelledSet := true, terminated := true }
| .notified => { cancelledSet := false, terminated := false }

/-- The effect of the watchdog thread in a given timing scenario. -/
def deadlineEffect (s : DeadlineScenario) : WatchdogEffect :=
  watchdogRun (waitOutcome s)

/-- Validator world whose runtime times out on the document "bad" and
returns an all-valid result on everything else. -/
def c4World : ValWorld :=
  { newInner := { id := 7 }
    outcome := fun _ doc =>
      if doc = "bad" then none else some { tests := [] } }

/-- Validator world returning a fixed two-entry test result: one failing
entry with two errors, one valid entry (whose errors must not be
reported). -/
def c7World : ValWorld :=
  { newInner := { id := 1 }
    outcome := fun _ _ =>
      some { tests :=
        [{ name := "t1", is_valid := false,
           errors := [{ message := "m1" }, { message := "m2" }],
           warnings := [], infos := [] },
         { name := "t2", is_valid := true,
           errors := [{ message := "suppressed" }],
           warnings := [], infos := [] }] } }

end Validator

/-! ## Theorems -/

namespace Discovery

/-- The iterator pipeline of the source and the specification's "first
qualifying entry in document order" description agree. -/
theorem selectCsafUrl_eq_spec (exts : List Extension) :
    selectCsafUrl exts = specFirstCsafHttps exts := by
  induction exts with
  | nil => rfl
  | cons ext rest ih =>
    by_cases hname : ext.name = "csaf"
    · cases hp : Url.parse ext.value with
      | none =>
        simpa [selectCsafUrl, specFirstCsafHttps, List.filter_cons, hname, hp,
          List.filterMap_cons] using ih
      | some u =>
        by_cases hs : u.scheme = "https"
        · simp [selectCsafUrl, specFirstCsafHttps, List.filter_cons, hname, hp,
            List.filterMap_cons, List.find?_cons, hs]
        · simpa [selectCsafUrl, specFirstCsafHttps, List.filter_cons, hname, hp,
            List.filterMap_cons, List.find?_cons, hs] using ih
    · cases hp : Url.parse ext.value with
      | none =>
        simpa [selectCsafUrl, specFirstCsafHttps, List.filter_cons, hname, hp] using ih
      | some u =>
        simpa [selectCsafUrl, specFirstCsafHttps, List.filter_cons, hname, hp] using ih

/-- The spec-side scan yields nothing exactly when no entry qualifies. -/
theorem specFirstCsafHttps_eq_none_iff (exts : List Extension) :
    specFirstCsafHttps exts = none ↔
      ∀ ext ∈ exts, ¬(ext.name = "csaf" ∧
        ∃ u, Url.parse ext.value = some u ∧ u.scheme = "https") := by
  induction exts with
  | nil => simp [specFirstCsafHttps]
  | cons ext rest ih =>
    cases hp : Url.parse ext.value with
    | none => simp [specFirstCsafHttps, hp, ih]
    | some u =>
      by_cases hc : ext.name = "csaf" ∧ u.scheme = "https"
      · simp only [specFirstCsafHttps, hp, if_pos hc]
        simp [hc.1, hc.2, hp]
      · simp only [specFirstCsafHttps, hp, if_neg hc]
        rw [ih]
        simp only [List.mem_cons, forall_eq_or_imp, hp]
        constructor
        · intro h
          refine ⟨?_, h⟩
          rintro ⟨h1, v, hv, hs⟩
          rw [Option.some_inj] at hv
          exact hc ⟨h1, hv ▸ hs⟩
        · intro h
          exact h.2

/-- C2 (counterexample): the extension-name match in
`get_metadata_url_from_security_text` is case-sensitive, so an extension
named `CSAF` with an acceptable `https` value is NOT selected, while the
identical entry named `csaf` is. -/
theorem C2_counterexample_case_matters :
    selectCsafUrl [{ name := "CSAF", value := "https://example.com/pm.json" }] = none ∧
    selectCsafUrl [{ name := "csaf", value := "https://example.com/pm.json" }] =
      some { scheme := "https", rest := "//example.com/pm.json" } := by decide

/-- C2 (amended): the `csaf` extension-name match is case-sensitive: if no
extension is named exactly (lower-case) `csaf`, nothing is selected,
regardless of the values; in particular an entry whose name differs from
`csaf` only in letter case is never selected. -/
theorem C2_name_match_is_case_sensitive (exts : List Extension)
    (h : ∀ ext ∈ exts, ext.name ≠ "csaf") :
    selectCsafUrl exts = none := by
  unfold selectCsafUrl
  have hfil : exts.filter (fun ext => ext.name == "csaf") = [] := by
    rw [List.filter_eq_nil_iff]
    intro ext hm
    simpa using h ext hm
  rw [hfil]
  rfl

theorem C2_witness :
    selectCsafUrl [{ name := "CSAF", value := "https://example.com/x" },
                   { name := "Csaf", value := "https://example.com/y" }] = none :=
  C2_name_match_is_case_sensitive _ (by decide)

/-- C3: if the source does not parse as an absolute URL, `approach_full_url`
returns `Ok(None)` with an empty request log (no fetch); if it parses
and the fetch of it is an HTTP 404, the approach fails with
`Err(Fetch)`. -/
theorem C3_approach_full_url_semantics (w : World) (base_url : String) :
    (Url.parse base_url = none → approach_full_url w base_url = (.ok none, [])) ∧
    (∀ u, Url.parse base_url = some u → w.fetch u.toString = .notFound →
      (approach_full_url w base_url).1 = .error .fetch) := by
  constructor
  · intro h
    unfold approach_full_url
    rw [h]
  · intro u hu hf
    unfold approach_full_url
    rw [hu]
    simp [fetchJsonPM, hf, Except.map]

theorem C3_witness :
    approach_full_url c3World "vendor.example" = (.ok none, []) ∧
    (approach_full_url c3World "https://example.com/pm.json").1 = .error .fetch :=
  ⟨(C3_approach_full_url_semantics c3World "vendor.example").1 (by decide),
   (C3_approach_full_url_semantics c3World "https://example.com/pm.json").2
     { scheme := "https", rest := "//example.com/pm.json" } (by decide) (by decide)⟩

/-- C6: when the security.txt is fetched (200) and parses, the result is the
first extension, in document order, whose name is `csaf` and whose value
parses as an absolute `https` URL; entries with non-`https` or
unparseable values are skipped even when they come first; and nothing is
selected exactly when no entry qualifies. -/
theorem C6_first_qualifying_entry_wins (w : World) (host_url text : String)
    (exts : List Extension)
    (hf : w.fetch host_url = .ok text)
    (hp : w.parseSecurityTxt text = some exts) :
    (get_metadata_url_from_security_text w host_url).1 = .ok (specFirstCsafHttps exts) ∧
    (specFirstCsafHttps exts = none ↔
      ∀ ext ∈ exts, ¬(ext.name = "csaf" ∧
        ∃ u, Url.parse ext.value = some u ∧ u.scheme = "https")) := by
  refine ⟨?_, specFirstCsafHttps_eq_none_iff exts⟩
  have hfo : fetchOptString w host_url = .ok (some text) := by
    unfold fetchOptString
    rw [hf]
  simp only [get_metadata_url_from_security_text, hfo, hp, selectCsafUrl_eq_spec]

theorem C6_witness :
    (get_metadata_url_from_security_text c6World
        "https://vendor.example/.well-known/security.txt").1 =
      .ok (some { scheme := "https", rest := "//good.example/pm.json" }) := by
  have h := (C6_first_qualifying_entry_wins c6World
    "https://vendor.example/.well-known/security.txt" "stxt"
    [{ name := "csaf", value := "http://legacy.example/pm.json" },
     { name := "csaf", value := "https://good.example/pm.json" }]
    (by decide) (by decide)).1
  rw [h]
  decide

/-- C8: `approach_dns` resolves `csaf.data.security.{source}` first; an
empty resolution or an authoritative no-records answer yields `Ok(None)`
with no HTTP request (empty request log); any other resolver error
yields `Err(Dns)` without an HTTP request; and only a non-empty
resolution leads to the fetch of `https://csaf.data.security.{source}`. -/
theorem C8_approach_dns_semantics (w : World) (base_url : String) :
    dnsHost base_url = "csaf.data.security." ++ base_url ∧
    (w.lookupIp (dnsHost base_url) = .resolved 0 →
      approach_dns w base_url = (.ok none, [])) ∧
    (w.lookupIp (dnsHost base_url) = .noRecordsFound →
      approach_dns w base_url = (.ok none, [])) ∧
    (w.lookupIp (dnsHost base_url) = .otherError →
      approach_dns w base_url = (.error .dns, [])) ∧
    (∀ n, w.lookupIp (dnsHost base_url) = .resolved (n + 1) →
      approach_dns w base_url =
        (fetchOptJsonPM w ("https://" ++ dnsHost base_url),
          ["https://" ++ dnsHost base_url])) := by
  refine ⟨rfl, ?_, ?_, ?_, ?_⟩
  · intro h
    unfold approach_dns
    rw [h]
  · intro h
    unfold approach_dns
    rw [h]
  · intro h
    unfold approach_dns
    rw [h]
  · intro n h
    unfold approach_dns
    rw [h]

theorem C8_witness :
    approach_dns c8World "a" = (.ok none, []) ∧
    approach_dns c8World "b" = (.ok none, []) ∧
    approach_dns c8World "c" = (.error .dns, []) ∧
    approach_dns c8World "d" =
      (fetchOptJsonPM c8World ("https://" ++ dnsHost "d"),
        ["https://" ++ dnsHost "d"]) :=
  ⟨(C8_approach_dns_semantics c8World "a").2.1 (by decide),
   (C8_approach_dns_semantics c8World "b").2.2.1 (by decide),
   (C8_approach_dns_semantics c8World "c").2.2.2.1 (by decide),
   (C8_approach_dns_semantics c8World "d").2.2.2.2 0 (by decide)⟩

/-- C10: when the DNS preflight succeeds but the metadata fetch of
`https://csaf.data.security.{source}` is a 404, `approach_dns` returns
`Ok(None)` — unlike `approach_full_url` and `approach_security_txt`,
where a 404 on the metadata fetch is `Err(Fetch)`. -/
theorem C10_dns_404_is_not_present (w : World) (base_url : String) :
    (∀ n, w.lookupIp (dnsHost base_url) = .resolved (n + 1) →
      w.fetch ("https://" ++ dnsHost base_url) = .notFound →
      (approach_dns w base_url).1 = .ok none) ∧
    (∀ u, Url.parse base_url = some u → w.fetch u.toString = .notFound →
      (approach_full_url w base_url).1 = .error .fetch) ∧
    (∀ path text exts u,
      w.fetch (securityTxtUrl base_url path) = .ok text →
      w.parseSecurityTxt text = some exts →
      selectCsafUrl exts = some u →
      w.fetch u.toString = .notFound →
      (approach_security_txt w base_url path).1 = .error .fetch) := by
  refine ⟨?_, ?_, ?_⟩
  · intro n hdns hf
    unfold approach_dns
    rw [hdns]
    simp [fetchOptJsonPM, hf]
  · intro u hu hf
    unfold approach_full_url
    rw [hu]
    simp [fetchJsonPM, hf, Except.map]
  · intro path text exts u hf hp hsel hf404
    have hmeta : get_metadata_url_from_security_text w (securityTxtUrl base_url path) =
        (.ok (some u), [securityTxtUrl base_url path]) := by
      have hfo : fetchOptString w (securityTxtUrl base_url path) = .ok (some text) := by
        unfold fetchOptString
        rw [hf]
      simp only [get_metadata_url_from_security_text, hfo, hp, hsel]
    unfold approach_security_txt
    rw [hmeta]
    simp [fetchJsonPM, hf404, Except.map]

theorem C10_witness :
    (approach_dns c10World "vendor.example").1 = .ok none ∧
    (approach_full_url c10World "https://attacker.example/x").1 = .error .fetch ∧
    (approach_security_txt c10World "vendor.example" ".well-known/security.txt").1 =
      .error .fetch :=
  ⟨(C10_dns_404_is_not_present c10World "vendor.example").1 0 (by decide) (by decide),
   (C10_dns_404_is_not_present c10World "https://attacker.example/x").2.1
     { scheme := "https", rest := "//attacker.example/x" } (by decide) (by decide),
   (C10_dns_404_is_not_present c10World "vendor.example").2.2
     ".well-known/security.txt" "stxt"
     [{ name := "csaf", value := "https://good.example/pm.json" }]
     { scheme := "https", rest := "//good.example/pm.json" }
     (by decide) (by decide) (by decide) (by decide)⟩

/-- Unfolding `chain` on a cons cell. -/
theorem chain_cons (r : Except Error (Option ProviderMetadata))
    (rs : List (Except Error (Option ProviderMetadata))) :
    chain (r :: rs) =
      match r with
      | .error e => .error e
      | .ok (some m) => .ok m
      | .ok none => chain rs := by
  cases r with
  | error e => rfl
  | ok o => cases o <;> rfl

/-- `load_metadata` is exactly the sequential chain over the five approach
results, in their fixed order. -/
theorem load_metadata_eq_chain (w : World) (base_url : String) :
    load_metadata w base_url = chain (approaches w base_url) := by
  unfold load_metadata approaches
  cases (approach_full_url w base_url).1 with
  | error e => simp [chain]
  | ok o1 =>
  cases o1 with
  | some m => simp [chain]
  | none =>
  cases (approach_well_known w base_url).1 with
  | error e => simp [chain]
  | ok o2 =>
  cases o2 with
  | some m => simp [chain]
  | none =>
  cases (approach_security_txt w base_url ".well-known/security.txt").1 with
  | error e => simp [chain]
  | ok o3 =>
  cases o3 with
  | some m => simp [chain]
  | none =>
  cases (approach_security_txt w base_url "security.txt").1 with
  | error e => simp [chain]
  | ok o4 =>
  cases o4 with
  | some m => simp [chain]
  | none =>
  cases (approach_dns w base_url).1 with
  | error e => simp [chain]
  | ok o5 =>
  cases o5 with
  | some m => simp [chain]
  | none => simp [chain]

/-- The chain inspects result `n` exactly when every earlier result is
`Ok(None)`. -/
theorem attempted_spec (rs : List (Except Error (Option ProviderMetadata))) :
    ∀ n, n < rs.length →
      (n < attempted rs ↔ ∀ m, m < n → rs.getD m (.ok none) = .ok none) := by
  induction rs with
  | nil =>
    intro n h
    simp at h
  | cons r rs ih =>
    intro n h
    cases n with
    | zero =>
      constructor
      · intro _ m hm
        exact absurd hm (Nat.not_lt_zero m)
      · intro _
        cases r with
        | error e => simp [attempted]
        | ok o => cases o <;> simp [attempted]
    | succ n =>
      have hn : n < rs.length := Nat.lt_of_succ_lt_succ h
      cases r with
      | error e =>
        simp only [attempted]
        constructor
        · intro hlt
          exact absurd hlt (by omega)
        · intro hall
          have h0 := hall 0 (Nat.succ_pos n)
          simp [List.getD] at h0
      | ok o =>
        cases o with
        | some m =>
          simp only [attempted]
          constructor
          · intro hlt
            exact absurd hlt (by omega)
          · intro hall
            have h0 := hall 0 (Nat.succ_pos n)
            simp [List.getD] at h0
        | none =>
          simp only [attempted]
          constructor
          · intro hlt m hm
            cases m with
            | zero => simp [List.getD]
            | succ m =>
              have hm2 : m < n := Nat.lt_of_succ_lt_succ hm
              have h2 := (ih n hn).mp (Nat.lt_of_succ_lt_succ hlt)
              simpa [List.getD] using h2 m hm2
          · intro hall
            have htail : ∀ m, m < n → rs.getD m (.ok none) = .ok none := by
              intro m hm
              simpa [List.getD] using hall (m + 1) (Nat.succ_lt_succ hm)
            have := (ih n hn).mpr htail
            omega

/-- The chain succeeds with `pm` exactly when some result is
`Ok(Some pm)` and every earlier result is `Ok(None)`. -/
theorem chain_ok_iff (rs : List (Except Error (Option ProviderMetadata)))
    (pm : ProviderMetadata) :
    chain rs = .ok pm ↔
      ∃ n, n < rs.length ∧ (∀ m, m < n → rs.getD m (.ok none) = .ok none) ∧
        rs.getD n (.ok none) = .ok (some pm) := by
  induction rs with
  | nil =>
    simp [chain]
  | cons r rs ih =>
    cases r with
    | error e =>
      rw [chain_cons]
      constructor
      · intro h
        cases h
      · rintro ⟨n, hn, hpre, hat⟩
        cases n with
        | zero => simp [List.getD] at hat
        | succ n =>
          have h0 := hpre 0 (Nat.succ_pos n)
          simp [List.getD] at h0
    | ok o =>
      cases o with
      | some m =>
        rw [chain_cons]
        constructor
        · intro h
          have hm : m = pm := by
            cases h
            rfl
          refine ⟨0, Nat.succ_pos _, ?_, ?_⟩
          · intro mm hmm
            exact absurd hmm (Nat.not_lt_zero mm)
          · simp [List.getD, hm]
        · rintro ⟨n, hn, hpre, hat⟩
          cases n with
          | zero =>
            simp only [List.getD_cons_zero] at hat
            cases hat
            rfl
          | succ n =>
            have h0 := hpre 0 (Nat.succ_pos n)
            simp [List.getD] at h0
      | none =>
        rw [chain_cons]
        simp only
        rw [ih]
        constructor
        · rintro ⟨n, hn, hpre, hat⟩
          refine ⟨n + 1, Nat.succ_lt_succ hn, ?_, by simpa [List.getD] using hat⟩
          intro m hm
          cases m with
          | zero => simp [List.getD]
          | succ m =>
            simpa [List.getD] using hpre m (Nat.lt_of_succ_lt_succ hm)
        · rintro ⟨n, hn, hpre, hat⟩
          cases n with
          | zero => simp [List.getD] at hat
          | succ n =>
            refine ⟨n, Nat.lt_of_succ_lt_succ hn, ?_, by simpa [List.getD] using hat⟩
            intro m hm
            simpa [List.getD] using hpre (m + 1) (Nat.succ_lt_succ hm)

/-- For any error other than `NotFound`, the chain fails with it exactly
when some result is that error and every earlier result is `Ok(None)`. -/
theorem chain_error_iff (rs : List (Except Error (Option ProviderMetadata)))
    (e : Error) (he : e ≠ Error.notFound) :
    chain rs = .error e ↔
      ∃ n, n < rs.length ∧ (∀ m, m < n → rs.getD m (.ok none) = .ok none) ∧
        rs.getD n (.ok none) = .error e := by
  induction rs with
  | nil =>
    simp only [chain, List.length_nil]
    constructor
    · intro h
      cases h
      exact absurd rfl he
    · rintro ⟨n, hn, -, -⟩
      exact absurd hn (Nat.not_lt_zero n)
  | cons r rs ih =>
    cases r with
    | error e2 =>
      rw [chain_cons]
      constructor
      · intro h
        have : e2 = e := by
          cases h
          rfl
        refine ⟨0, Nat.succ_pos _, ?_, by simp [List.getD, this]⟩
        intro m hm
        exact absurd hm (Nat.not_lt_zero m)
      · rintro ⟨n, hn, hpre, hat⟩
        cases n with
        | zero =>
          simp only [List.getD_cons_zero] at hat
          simpa using hat
        | succ n =>
          have h0 := hpre 0 (Nat.succ_pos n)
          simp [List.getD] at h0
    | ok o =>
      cases o with
      | some m =>
        rw [chain_cons]
        constructor
        · intro h
          cases h
        · rintro ⟨n, hn, hpre, hat⟩
          cases n with
          | zero => simp [List.getD] at hat
          | succ n =>
            have h0 := hpre 0 (Nat.succ_pos n)
            simp [List.getD] at h0
      | none =>
        rw [chain_cons]
        simp only
        rw [ih]
        constructor
        · rintro ⟨n, hn, hpre, hat⟩
          refine ⟨n + 1, Nat.succ_lt_succ hn, ?_, by simpa [List.getD] using hat⟩
          intro m hm
          cases m with
          | zero => simp [List.getD]
          | succ m =>
            simpa [List.getD] using hpre m (Nat.lt_of_succ_lt_succ hm)
        · rintro ⟨n, hn, hpre, hat⟩
          cases n with
          | zero => simp [List.getD] at hat
          | succ n =>
            refine ⟨n, Nat.lt_of_succ_lt_succ hn, ?_, by simpa [List.getD] using hat⟩
            intro m hm
            simpa [List.getD] using hpre (m + 1) (Nat.succ_lt_succ hm)

/-- When no result is `Err(NotFound)` itself, the chain returns
`Err(NotFound)` exactly when every result is `Ok(None)`. -/
theorem chain_notFound_iff (rs : List (Except Error (Option ProviderMetadata)))
    (h : ∀ r ∈ rs, r ≠ .error .notFound) :
    chain rs = .error .notFound ↔
      ∀ n, n < rs.length → rs.getD n (.ok none) = .ok none := by
  induction rs with
  | nil => simp [chain]
  | cons r rs ih =>
    have hr := h r (List.mem_cons_self r rs)
    have htail := ih fun x hx => h x (List.mem_cons_of_mem r hx)
    cases r with
    | error e =>
      rw [chain_cons]
      constructor
      · intro heq
        have : e = Error.notFound := by
          cases heq
          rfl
        exact absurd (by rw [this]) hr
      · intro hall
        have h0 := hall 0 (Nat.succ_pos _)
        simp [List.getD] at h0
    | ok o =>
      cases o with
      | some m =>
        rw [chain_cons]
        constructor
        · intro heq
          cases heq
        · intro hall
          have h0 := hall 0 (Nat.succ_pos _)
          simp [List.getD] at h0
      | none =>
        rw [chain_cons]
        simp only
        rw [htail]
        constructor
        · intro hall n hn
          cases n with
          | zero => simp [List.getD]
          | succ n =>
            simpa [List.getD] using hall n (Nat.lt_of_succ_lt_succ hn)
        · intro hall n hn
          simpa [List.getD] using hall (n + 1) (Nat.succ_lt_succ hn)

/-- The non-`Option` fetch never reports `NotFound` as its error. -/
theorem fetchJsonPM_ne_notFound (w : World) (url : String) :
    fetchJsonPM w url ≠ .error .notFound := by
  unfold fetchJsonPM
  split
  · split <;> simp
  · simp
  · simp

/-- The `Option` JSON fetch never reports `NotFound` as its error. -/
theorem fetchOptJsonPM_ne_notFound (w : World) (url : String) :
    fetchOptJsonPM w url ≠ .error .notFound := by
  unfold fetchOptJsonPM
  split
  · split <;> simp
  · simp
  · simp

/-- The `Option` text fetch never reports `NotFound` as its error. -/
theorem fetchOptString_ne_notFound (w : World) (url : String) :
    fetchOptString w url ≠ .error .notFound := by
  unfold fetchOptString
  split <;> simp

/-- Approach 1 never fails with `NotFound`. -/
theorem approach_full_url_ne_notFound (w : World) (base_url : String) :
    (approach_full_url w base_url).1 ≠ .error .notFound := by
  unfold approach_full_url
  split
  · simp
  · rename_i u _
    have h := fetchJsonPM_ne_notFound w u.toString
    cases hf : fetchJsonPM w u.toString with
    | ok pm => simp [Except.map, hf]
    | error e =>
      rw [hf] at h
      simp only [Except.map, hf]
      intro hc
      cases hc
      exact h rfl

/-- Approach 2 never fails with `NotFound`. -/
theorem approach_well_known_ne_notFound (w : World) (base_url : String) :
    (approach_well_known w base_url).1 ≠ .error .notFound := by
  unfold approach_well_known
  exact fetchOptJsonPM_ne_notFound w (wellKnownUrl base_url)

/-- The security.txt URL extraction never fails with `NotFound`. -/
theorem get_metadata_url_ne_notFound (w : World) (host_url : String) :
    (get_metadata_url_from_security_text w host_url).1 ≠ .error .notFound := by
  unfold get_metadata_url_from_security_text
  split
  · rename_i e heq
    have h := fetchOptString_ne_notFound w host_url
    rw [heq] at h
    intro hc
    cases hc
    exact h rfl
  · simp
  · split <;> simp

/-- Approaches 3 and 4 never fail with `NotFound`. -/
theorem approach_security_txt_ne_notFound (w : World) (base_url path : String) :
    (approach_security_txt w base_url path).1 ≠ .error .notFound := by
  unfold approach_security_txt
  split
  · rename_i e log heq
    have h := get_metadata_url_ne_notFound w (securityTxtUrl base_url path)
    rw [heq] at h
    simpa using h
  · simp
  · rename_i url log heq
    have h := fetchJsonPM_ne_notFound w url.toString
    cases hf : fetchJsonPM w url.toString with
    | ok pm => simp [Except.map, hf]
    | error e =>
      rw [hf] at h
      simp only [Except.map, hf]
      intro hc
      cases hc
      exact h rfl

/-- Approach 5 never fails with `NotFound`. -/
theorem approach_dns_ne_notFound (w : World) (base_url : String) :
    (approach_dns w base_url).1 ≠ .error .notFound := by
  unfold approach_dns
  split
  · simp
  · simp
  · simp
  · exact fetchOptJsonPM_ne_notFound w ("https://" ++ dnsHost base_url)

/-- No individual approach ever reports `NotFound`; that error is produced
only by the orchestrator after all approaches. -/
theorem approaches_ne_notFound (w : World) (base_url : String) :
    ∀ r ∈ approaches w base_url, r ≠ .error .notFound := by
  intro r hr
  simp only [approaches, List.mem_cons, List.not_mem_nil, or_false] at hr
  rcases hr with h | h | h | h | h
  · exact h ▸ approach_full_url_ne_notFound w base_url
  · exact h ▸ approach_well_known_ne_notFound w base_url
  · exact h ▸ approach_security_txt_ne_notFound w base_url ".well-known/security.txt"
  · exact h ▸ approach_security_txt_ne_notFound w base_url "security.txt"
  · exact h ▸ approach_dns_ne_notFound w base_url

/-- C1: `load_metadata` is the strictly ordered chain over the five
approaches (full URL, well-known, security.txt at
`.well-known/security.txt`, security.txt at `security.txt`, DNS):
approach `n` is inspected iff every earlier approach returned `Ok(None)`;
the chain stops at the first `Ok(Some)` (returned) or the first `Err`
(propagated); and `Err(NotFound)` is returned iff all five approaches
returned `Ok(None)`. -/
theorem C1_load_metadata_strictly_ordered_chain (w : World) (base_url : String) :
    load_metadata w base_url = chain (approaches w base_url) ∧
    (approaches w base_url).length = 5 ∧
    (∀ n, n < 5 →
      (n < attempted (approaches w base_url) ↔
        ∀ m, m < n → (approaches w base_url).getD m (.ok none) = .ok none)) ∧
    (∀ pm, load_metadata w base_url = .ok pm ↔
      ∃ n, n < 5 ∧
        (∀ m, m < n → (approaches w base_url).getD m (.ok none) = .ok none) ∧
        (approaches w base_url).getD n (.ok none) = .ok (some pm)) ∧
    (∀ e, e ≠ Error.notFound →
      (load_metadata w base_url = .error e ↔
        ∃ n, n < 5 ∧
          (∀ m, m < n → (approaches w base_url).getD m (.ok none) = .ok none) ∧
          (approaches w base_url).getD n (.ok none) = .error e)) ∧
    (load_metadata w base_url = .error .notFound ↔
      ∀ n, n < 5 → (approaches w base_url).getD n (.ok none) = .ok none) := by
  have hlen : (approaches w base_url).length = 5 := rfl
  have hlm := load_metadata_eq_chain w base_url
  refine ⟨hlm, hlen, ?_, ?_, ?_, ?_⟩
  · intro n hn
    exact attempted_spec (approaches w base_url) n (by rw [hlen]; exact hn)
  · intro pm
    rw [hlm, chain_ok_iff, hlen]
  · intro e he
    rw [hlm, chain_error_iff (approaches w base_url) e he, hlen]
  · rw [hlm, chain_notFound_iff (approaches w base_url)
      (approaches_ne_notFound w base_url), hlen]

theorem C1_witness :
    load_metadata c1World "vendor.example" = .error .notFound ∧
    attempted (approaches c1World "vendor.example") = 5 := by
  constructor
  · exact (C1_load_metadata_strictly_ordered_chain
      c1World "vendor.example").2.2.2.2.2.mpr (by decide)
  · decide

end Discovery

namespace Validator

/-- The imperative result loop equals filtering out valid entries and
emitting each remaining entry's error strings in order. -/
theorem renderTests_eq_flatMap (l : List Entry) :
    renderTests l = (l.filter fun e => !e.is_valid).flatMap
      (fun e => e.errors.map fun err => e.name ++ ": " ++ err.message) := by
  induction l with
  | nil => rfl
  | cons e rest ih =>
    cases hv : e.is_valid <;>
      simp [renderTests, List.filter_cons, hv, ih]

/-- C4: when the inner `validate` returns the timeout sentinel `None`,
`check` clears the runtime slot and returns exactly
`["check timed out"]`; a subsequent `check` call on the emptied slot
lazily builds a fresh runtime and proceeds normally. -/
theorem C4_check_timeout_evicts_and_rebuilds (w : ValWorld)
    (slot : Option InnerCheck) (doc : Csaf)
    (h : w.outcome (innerUsed w slot) doc = none) :
    check w slot doc = (none, ["check timed out"]) ∧
    (∀ doc2 tr, w.outcome w.newInner doc2 = some tr →
      check w none doc2 = (some w.newInner, renderTests tr.tests)) := by
  constructor
  · unfold check
    rw [h]
  · intro doc2 tr h2
    unfold check
    simp only [innerUsed] at h2 ⊢
    rw [h2]

theorem C4_witness :
    check c4World none "bad" = (none, ["check timed out"]) ∧
    check c4World none "good" = (some { id := 7 }, []) := by
  have h := C4_check_timeout_evicts_and_rebuilds c4World none "bad" (by decide)
  refine ⟨h.1, ?_⟩
  have h2 := h.2 "good" { tests := [] } (by decide)
  simpa using h2

/-- C5: the argument construction of `InnerCheck::validate` passes the
runner exactly two arguments, in the order `[validations, doc]` — the
reverse of the `validate` parameter order `(doc, validations)`. -/
theorem C5_runner_args_reversed (runner : List JsValue → TestResult)
    (cancelled : Bool) (doc : Csaf) (vsets : List ValidationSet) :
    validate runner cancelled doc vsets =
      (if cancelled then none
       else some (runner [JsValue.validationsVal vsets, JsValue.docVal doc])) ∧
    buildArgs doc vsets = [JsValue.validationsVal vsets, JsValue.docVal doc] ∧
    (buildArgs doc vsets).length = 2 ∧
    buildArgs doc vsets = List.reverse [JsValue.docVal doc, JsValue.validationsVal vsets] := by
  exact ⟨rfl, rfl, rfl, rfl⟩

/-- C7: on a non-timed-out result, `check` reports, in entry order, one
string `"{entry.name}: {error.message}"` per error of each entry that is
not valid, in error order, and nothing for valid entries; an all-valid
result yields `[]`. -/
theorem C7_check_renders_failing_entries (w : ValWorld)
    (slot : Option InnerCheck) (doc : Csaf) (tr : TestResult)
    (h : w.outcome (innerUsed w slot) doc = some tr) :
    (check w slot doc).2 =
      (tr.tests.filter fun e => !e.is_valid).flatMap
        (fun e => e.errors.map fun err => e.name ++ ": " ++ err.message) ∧
    ((∀ e ∈ tr.tests, e.is_valid = true) → (check w slot doc).2 = []) := by
  have hc : (check w slot doc).2 = renderTests tr.tests := by
    unfold check
    rw [h]
  constructor
  · rw [hc, renderTests_eq_flatMap]
  · intro hall
    rw [hc, renderTests_eq_flatMap]
    have hfil : tr.tests.filter (fun e => !e.is_valid) = [] := by
      rw [List.filter_eq_nil_iff]
      intro e he
      simp [hall e he]
    rw [hfil]
    rfl

theorem C7_witness :
    (check c7World none "doc").2 = ["t1: m1", "t1: m2"] := by
  have h := (C7_check_renders_failing_entries c7World none "doc"
    { tests :=
      [{ name := "t1", is_valid := false,
         errors := [{ message := "m1" }, { message := "m2" }],
         warnings := [], infos := [] },
       { name := "t2", is_valid := true,
         errors := [{ message := "suppressed" }],
         warnings := [], infos := [] }] }
    (by decide)).1
  rw [h]
  decide

/-- C9 (counterexample): the claim fails when `Deadline::drop` runs before
the watchdog thread has begun its timed wait: the guard is dropped
before the configured duration elapses, yet the `notify_one` wakes no
waiting thread, so the watchdog's wait times out, sets the cancelled
flag, and calls `terminate_execution`. -/
theorem C9_counterexample_lost_wakeup :
    ({ waitStart := 1, dropTime := 0, duration := 5 } : DeadlineScenario).dropTime <
      ({ waitStart := 1, dropTime := 0, duration := 5 } : DeadlineScenario).waitStart +
      ({ waitStart := 1, dropTime := 0, duration := 5 } : DeadlineScenario).duration ∧
    waitOutcome { waitStart := 1, dropTime := 0, duration := 5 } = WaitResult.timedOut ∧
    deadlineEffect { waitStart := 1, dropTime := 0, duration := 5 } =
      { cancelledSet := true, terminated := true } := by decide

/-- C9 (amended): for every validate call whose `Deadline` guard is dropped
before the configured duration elapses AND at or after the instant the
watchdog thread begins its timed wait, the watchdog is woken by the
condition-variable notification and exits without calling the isolate's
`terminate_execution` handle and without setting the cancelled flag.
(If the guard is dropped before the watchdog begins waiting, the
notification is lost and the watchdog times out and terminates
execution.) -/
theorem C9_disarm_wakes_watchdog (s : DeadlineScenario)
    (h1 : s.waitStart ≤ s.dropTime)
    (h2 : s.dropTime < s.waitStart + s.duration) :
    waitOutcome s = WaitResult.notified ∧
    deadlineEffect s = { cancelledSet := false, terminated := false } := by
  have ho : waitOutcome s = WaitResult.notified := by
    unfold waitOutcome
    rw [if_pos ⟨h1, h2⟩]
  exact ⟨ho, by unfold deadlineEffect; rw [ho]; rfl⟩

theorem C9_witness :
    waitOutcome { waitStart := 0, dropTime := 1, duration := 5 } = WaitResult.notified ∧
    deadlineEffect { waitStart := 0, dropTime := 1, duration := 5 } =
      { cancelledSet := false, terminated := false } :=
  C9_disarm_wakes_watchdog { waitStart := 0, dropTime := 1, duration := 5 }
    (by decide) (by decide)

end Validator
